import Mathlib

/-!
Verification development for the mobile-dig-scope forensic core:
case key management, artifact encryption, and the tamper-evident
custody ledger, together with the ADB command/path validator.

The TypeScript source is embedded shallowly:
* the crypto-js primitives (SHA-256, HMAC-SHA256, PBKDF2, AES-CBC) are an
  external library, so they are carried as an abstract `Crypto` record of
  string functions; properties of the primitives that a statement needs
  (round-trip of the cipher, collision-freeness of the hash) appear as
  explicit hypotheses, and a concrete tagging instance `toyCrypto`
  discharges them on concrete inputs;
* `IndexedDB` persistence becomes an explicit `DBState` value threaded
  through the operations (`storeData` by id is modelled by consing the
  record for cases and appending for the append-only ledger);
* `crypto.randomUUID()`, `new Date().toISOString()` and the random salt /
  IV generators are modelled as explicit parameters of the operations that
  call them;
* JavaScript truthiness tests on strings (`!s`) become `s = ""` tests, and
  an optional (`string | undefined`) argument becomes `Option String`.
-/

namespace MobileDigScope

/-! ## List and string helpers used by the embedding -/

/-- Remove the expected leading characters `p` from `l`; `some rest` when
`l = p ++ rest`, `none` otherwise. -/
def dropLead : List Char → List Char → Option (List Char)
  | [], rest => some rest
  | _ :: _, [] => none
  | p :: ps, x :: xs => if p = x then dropLead ps xs else none

theorem dropLead_eq_some {p l r : List Char} :
    dropLead p l = some r ↔ l = p ++ r := by
  induction p generalizing l with
  | nil => simp [dropLead]
  | cons a ps ih =>
    cases l with
    | nil => simp [dropLead]
    | cons x xs =>
      simp only [dropLead]
      by_cases hax : a = x
      · subst hax
        simp [ih]
      · rw [if_neg hax]
        constructor
        · intro h
          cases h
        · intro h
          injection h with h1 h2
          exact absurd h1.symm hax

/-- Two strings are equal exactly when their character lists are. -/
theorem stringDataInj {a b : String} (h : a.data = b.data) : a = b := by
  cases a; cases b
  exact congrArg String.mk h

/-! ## Cryptographic primitives (crypto-js), carried abstractly

`src/lib/crypto.ts` wraps the external crypto-js library.  The wrapper code
is embedded below (`ForensicCrypto`); the library functions themselves are
the fields of this record. -/

structure Crypto where
  sha256 : String → String
  md5 : String → String
  hmacSHA256 : String → String → String
  pbkdf2 : String → String → String
  aesEncrypt : String → String → String → String
  aesDecrypt : String → String → String → String

namespace ForensicCrypto

/-- Embeds `ForensicCrypto.deriveKey(password, salt)`: PBKDF2 with
100000 iterations and a 256-bit key, from `src/lib/crypto.ts`. -/
def deriveKey (c : Crypto) (password salt : String) : String :=
  c.pbkdf2 password salt

/-- Embeds `ForensicCrypto.encrypt(data, key)` from `src/lib/crypto.ts`.
The source generates a fresh random IV internally via `generateIV()` and
returns it next to the ciphertext; the generated IV is the explicit `iv`
parameter here. -/
def encrypt (c : Crypto) (data key iv : String) : String × String :=
  (c.aesEncrypt data key iv, iv)

/-- Embeds `ForensicCrypto.decrypt(encryptedData, key, iv)` from
`src/lib/crypto.ts`. -/
def decrypt (c : Crypto) (encryptedData key iv : String) : String :=
  c.aesDecrypt encryptedData key iv

/-- Embeds `ForensicCrypto.calculateSHA256(data)`. -/
def calculateSHA256 (c : Crypto) (data : String) : String :=
  c.sha256 data

/-- Embeds `ForensicCrypto.calculateMD5(data)`. -/
def calculateMD5 (c : Crypto) (data : String) : String :=
  c.md5 data

/-- Embeds `ForensicCrypto.calculateHMAC(data, key)`. -/
def calculateHMAC (c : Crypto) (data key : String) : String :=
  c.hmacSHA256 data key

/-- Embeds `ForensicCrypto.verifyHMAC(data, key, signature)`: recomputes
the HMAC and compares it with the stored signature. -/
def verifyHMAC (c : Crypto) (data key signature : String) : Bool :=
  calculateHMAC c data key == signature

end ForensicCrypto

/-! ## Data model (`src/lib/database.ts` interfaces) -/

/-- The `status` union of the `ForensicCase` interface. -/
inductive CaseStatus
  | active
  | completed
  | archived
deriving DecidableEq, Repr

def CaseStatus.toText : CaseStatus → String
  | .active => "active"
  | .completed => "completed"
  | .archived => "archived"

/-- The `action` union of the `CustodyLog` interface. -/
inductive CustodyAction
  | case_created
  | acquisition_started
  | acquisition_completed
  | artifact_added
  | report_generated
  | case_exported
  | target_acquisition_started
  | target_acquisition_completed
deriving DecidableEq, Repr

/-- The string value each `CustodyLog.action` member carries in the source
(TypeScript string-literal union). -/
def CustodyAction.toText : CustodyAction → String
  | .case_created => "case_created"
  | .acquisition_started => "acquisition_started"
  | .acquisition_completed => "acquisition_completed"
  | .artifact_added => "artifact_added"
  | .report_generated => "report_generated"
  | .case_exported => "case_exported"
  | .target_acquisition_started => "target_acquisition_started"
  | .target_acquisition_completed => "target_acquisition_completed"

/-- The `ForensicCase` interface of `src/lib/database.ts`.  As in the
source, there is no field that could carry a password or a derived key:
only the salt and the verification hash are part of the record. -/
structure ForensicCase where
  id : String
  name : String
  examiner : String
  createdAt : String
  updatedAt : String
  status : CaseStatus
  deviceInfo : Option String
  legalAuthorization : Option String
  encryptionSalt : String
  passwordVerificationHash : String
deriving DecidableEq, Repr

/-- The `Artifact` interface of `src/lib/database.ts` (the `type` union is
kept as its string value). -/
structure Artifact where
  id : String
  caseId : String
  type : String
  name : String
  filePath : String
  sha256 : String
  md5 : String
  size : Nat
  createdAt : String
  metadata : Option String
  isEncrypted : Bool
  iv : Option String
deriving DecidableEq, Repr

/-- The `CustodyLog` interface of `src/lib/database.ts`. -/
structure CustodyLog where
  id : String
  caseId : String
  action : CustodyAction
  examiner : String
  timestamp : String
  details : String
  deviceIdentifier : Option String
  hmacSignature : String
deriving DecidableEq, Repr

/-! ## JSON.stringify serialization used for signing custody entries

`createCustodyLog` signs `JSON.stringify({...logEntry, hmacSignature:
undefined})`.  `JSON.stringify` writes the fields in insertion order
(`id, caseId, action, examiner, timestamp, details, deviceIdentifier`),
escapes string contents, and omits every property whose value is
`undefined` — so the signature field is always omitted and the optional
`deviceIdentifier` is omitted when absent. -/

def hexDigit (n : Nat) : Char :=
  if n < 10 then Char.ofNat (48 + n) else Char.ofNat (87 + n)

/-- JSON string escaping as performed by `JSON.stringify`. -/
def jsonEscapeChar (ch : Char) : String :=
  if ch = '"' then "\\\""
  else if ch = '\\' then "\\\\"
  else if ch = '\x08' then "\\b"
  else if ch = '\x0c' then "\\f"
  else if ch = '\n' then "\\n"
  else if ch = '\r' then "\\r"
  else if ch = '\t' then "\\t"
  else if ch.toNat < 32 then
    "\\u00" ++ String.mk [hexDigit (ch.toNat / 16), hexDigit (ch.toNat % 16)]
  else String.mk [ch]

def jsonQuote (s : String) : String :=
  "\"" ++ String.join (s.data.map jsonEscapeChar) ++ "\""

/-- The canonical signable form of a custody entry: the exact string
`JSON.stringify({...logEntry, hmacSignature: undefined})` produces in
`createCustodyLog` and `verifyCustodyLogIntegrity`.  The signature field
never appears in it. -/
def serializeForSigning (e : CustodyLog) : String :=
  "\x7b" ++ "\"id\":" ++ jsonQuote e.id
  ++ ",\"caseId\":" ++ jsonQuote e.caseId
  ++ ",\"action\":" ++ jsonQuote e.action.toText
  ++ ",\"examiner\":" ++ jsonQuote e.examiner
  ++ ",\"timestamp\":" ++ jsonQuote e.timestamp
  ++ ",\"details\":" ++ jsonQuote e.details
  ++ (match e.deviceIdentifier with
      | none => ""
      | some d => ",\"deviceIdentifier\":" ++ jsonQuote d)
  ++ "\x7d"

/-! ## Persistent store and `ForensicDatabase` operations -/

/-- The persisted stores of `ForensicDatabase` (`cases`, `artifacts`,
`custodyLogs` object stores of the IndexedDB database).  `storeData`
(a `put` keyed by `id`) is modelled by consing for `cases` — a later
record with the same id shadows an earlier one under `getCase` — and by
appending for the append-only `artifacts` and `custodyLogs` stores. -/
structure DBState where
  cases : List ForensicCase
  artifacts : List Artifact
  custodyLogs : List CustodyLog
deriving DecidableEq, Repr

def DBState.empty : DBState :=
  { cases := [], artifacts := [], custodyLogs := [] }

/-- The `logData` argument of `ForensicDatabase.createCustodyLog`. -/
structure CustodyLogData where
  caseId : String
  action : CustodyAction
  examiner : String
  details : String
  deviceIdentifier : Option String
deriving DecidableEq, Repr

namespace ForensicDatabase

/-- Embeds `ForensicDatabase.getCase(id)` (a `get` on the `cases` store). -/
def getCase (db : DBState) (id : String) : Option ForensicCase :=
  db.cases.find? (fun fc => fc.id == id)

/-- Embeds `ForensicDatabase.getCustodyLogs(caseId)` (the `caseId` index
of the `custodyLogs` store, in insertion order). -/
def getCustodyLogs (db : DBState) (caseId : String) : List CustodyLog :=
  db.custodyLogs.filter (fun e => e.caseId == caseId)

/-- Embeds the entry construction and signing of
`ForensicDatabase.createCustodyLog(logData, hmacKey)`
(`src/lib/database.ts` lines 185-216): builds the entry with a fresh id
and the current timestamp (explicit parameters `newId`, `timestamp`),
serializes every field except the signature, and stores the HMAC of that
serialization under `hmacKey` in the `hmacSignature` field. -/
def mkCustodyLog (c : Crypto) (newId timestamp : String)
    (logData : CustodyLogData) (hmacKey : String) : CustodyLog :=
  let logEntry : CustodyLog :=
    { id := newId
      caseId := logData.caseId
      action := logData.action
      examiner := logData.examiner
      timestamp := timestamp
      details := logData.details
      deviceIdentifier := logData.deviceIdentifier
      hmacSignature := "" }
  let dataToSign := serializeForSigning logEntry
  { logEntry with hmacSignature := ForensicCrypto.calculateHMAC c dataToSign hmacKey }

/-- `createCustodyLog` also persists the entry (`storeData('custodyLogs',
logEntry)`) before returning it. -/
def createCustodyLog (c : Crypto) (db : DBState) (newId timestamp : String)
    (logData : CustodyLogData) (hmacKey : String) : CustodyLog × DBState :=
  let logEntry := mkCustodyLog c newId timestamp logData hmacKey
  (logEntry, { db with custodyLogs := db.custodyLogs ++ [logEntry] })

/-- Embeds `ForensicDatabase.verifyCustodyLogIntegrity(log, hmacKey)`
(`src/lib/database.ts` lines 222-228): recomputes the serialization with
the signature excluded and compares its HMAC with the stored signature. -/
def verifyCustodyLogIntegrity (c : Crypto) (log : CustodyLog) (hmacKey : String) : Bool :=
  ForensicCrypto.verifyHMAC c (serializeForSigning log) hmacKey log.hmacSignature

/-- The `caseData` argument of `ForensicDatabase.createCase`. -/
structure CaseInput where
  name : String
  examiner : String
  status : CaseStatus
  deviceInfo : Option String
  legalAuthorization : Option String
deriving DecidableEq, Repr

/-- Embeds `ForensicDatabase.createCase(caseData, password)`
(`src/lib/database.ts` lines 90-127): generates a salt (parameter `salt`),
derives the key with PBKDF2, stores the SHA-256 of the derived key as the
password verification hash, persists the case record, signs a
`case_created` custody entry with `calculateHMAC('hmac_key_derivation',
encryptionKey)` as the HMAC key, and returns the case together with the
in-memory key. -/
def createCase (c : Crypto) (db : DBState)
    (caseId now salt logId logTs : String)
    (caseData : CaseInput) (password : String) :
    (ForensicCase × String) × DBState :=
  let encryptionKey := ForensicCrypto.deriveKey c password salt
  let passwordVerificationHash := ForensicCrypto.calculateSHA256 c encryptionKey
  let forensicCase : ForensicCase :=
    { id := caseId
      name := caseData.name
      examiner := caseData.examiner
      createdAt := now
      updatedAt := now
      status := caseData.status
      deviceInfo := caseData.deviceInfo
      legalAuthorization := caseData.legalAuthorization
      encryptionSalt := salt
      passwordVerificationHash := passwordVerificationHash }
  let db1 : DBState := { db with cases := forensicCase :: db.cases }
  let hmacKey := ForensicCrypto.calculateHMAC c "hmac_key_derivation" encryptionKey
  let logged := createCustodyLog c db1 logId logTs
    { caseId := forensicCase.id
      action := .case_created
      examiner := caseData.examiner
      details := "Case \"" ++ caseData.name ++ "\" created with AES-256 encryption"
      deviceIdentifier := none } hmacKey
  ((forensicCase, encryptionKey), logged.2)

/-- The `artifact` argument of `ForensicDatabase.addArtifact`. -/
structure ArtifactInput where
  caseId : String
  type : String
  name : String
  filePath : String
  sha256 : String
  md5 : String
  size : Nat
  metadata : Option String
  isEncrypted : Bool
  iv : Option String
deriving DecidableEq, Repr

/-- Embeds `ForensicDatabase.addArtifact(artifact, encryptionKey)`
(`src/lib/database.ts` lines 154-179): persists the artifact, and — when
the owning case exists — signs an `artifact_added` custody entry with
`calculateHMAC('hmac_key_derivation', encryptionKey)` as the HMAC key. -/
def addArtifact (c : Crypto) (db : DBState)
    (newId now logId logTs : String)
    (artifact : ArtifactInput) (encryptionKey : String) : Artifact × DBState :=
  let fullArtifact : Artifact :=
    { id := newId
      caseId := artifact.caseId
      type := artifact.type
      name := artifact.name
      filePath := artifact.filePath
      sha256 := artifact.sha256
      md5 := artifact.md5
      size := artifact.size
      createdAt := now
      metadata := artifact.metadata
      isEncrypted := artifact.isEncrypted
      iv := artifact.iv }
  let db1 : DBState := { db with artifacts := db.artifacts ++ [fullArtifact] }
  match getCase db1 artifact.caseId with
  | some forensicCase =>
    let hmacKey := ForensicCrypto.calculateHMAC c "hmac_key_derivation" encryptionKey
    let logged := createCustodyLog c db1 logId logTs
      { caseId := artifact.caseId
        action := .artifact_added
        examiner := forensicCase.examiner
        details := "Artifact \"" ++ artifact.name ++ "\" added (" ++ artifact.type ++ ")"
        deviceIdentifier := none } hmacKey
    (fullArtifact, logged.2)
  | none => (fullArtifact, db1)

end ForensicDatabase

/-! ## SecureKeyManager (`src/lib/target-acquisition.ts`) -/

/-- The in-memory `keyCache : Map<string, {key, timestamp}>` of
`SecureKeyManager`, as an association list in which a newer entry for a
case id shadows an older one (the observable behavior of `Map.set` /
`Map.get`).  Timestamps are `Date.now()` milliseconds. -/
abbrev KeyCache : Type := List (String × String × Int)

def KeyCache.get (cache : KeyCache) (caseId : String) : Option (String × Int) :=
  (List.find? (fun e => e.1 == caseId) cache).map (fun e => e.2)

def KeyCache.set (cache : KeyCache) (caseId key : String) (timestamp : Int) : KeyCache :=
  (caseId, key, timestamp) :: cache

namespace SecureKeyManager

/-- `CACHE_TTL = 30 * 60 * 1000` milliseconds (30 minutes). -/
def CACHE_TTL : Int := 30 * 60 * 1000

inductive KeyManagerError
  | caseNotFound
  | missingSalt
  | passwordRequired
deriving DecidableEq, Repr

/-- The cache probe inside `deriveKeyForCase` and `getKeyForCustodyLog`:
`this.keyCache.get(caseId)` followed by
`cached && Date.now() - cached.timestamp < CACHE_TTL`. -/
def freshCachedKey (cache : KeyCache) (now : Int) (caseId : String) : Option String :=
  match KeyCache.get cache caseId with
  | some (k, t) => if now - t < CACHE_TTL then some k else none
  | none => none

/-- Embeds `SecureKeyManager.deriveKeyForCase(caseId, password)`
(`src/lib/target-acquisition.ts` lines 441-467): loads the case (error if
absent), fails if the stored salt is falsy, returns the cached key when
the cached entry is younger than `CACHE_TTL`, and otherwise derives the
key from the supplied password and the stored salt, caches it with a
fresh timestamp, and returns it. -/
def deriveKeyForCase (c : Crypto) (db : DBState) (cache : KeyCache) (now : Int)
    (caseId password : String) : Except KeyManagerError (String × KeyCache) :=
  match ForensicDatabase.getCase db caseId with
  | none => .error .caseNotFound
  | some forensicCase =>
    if forensicCase.encryptionSalt = "" then .error .missingSalt
    else
      match freshCachedKey cache now caseId with
      | some k => .ok (k, cache)
      | none =>
        let key := ForensicCrypto.deriveKey c password forensicCase.encryptionSalt
        .ok (key, KeyCache.set cache caseId key now)

/-- Embeds `SecureKeyManager.verifyPassword(caseId, password)`
(`src/lib/target-acquisition.ts` lines 473-489): fails closed (`false`)
when the case is absent or its verification hash or salt is falsy;
otherwise derives the key from the supplied password and the stored salt,
hashes it with SHA-256 and compares it with the stored
`passwordVerificationHash`. -/
def verifyPassword (c : Crypto) (db : DBState) (caseId password : String) : Bool :=
  match ForensicDatabase.getCase db caseId with
  | none => false
  | some forensicCase =>
    if forensicCase.passwordVerificationHash = "" || forensicCase.encryptionSalt = "" then
      false
    else
      let derivedKey := ForensicCrypto.deriveKey c password forensicCase.encryptionSalt
      let verificationHash := ForensicCrypto.calculateSHA256 c derivedKey
      verificationHash == forensicCase.passwordVerificationHash

/-- The stateful view of `verifyPassword`: the source performs only a
`getCase` read and pure computation — it contains no `storeData` call —
so the persistent store comes back unchanged. -/
def verifyPasswordS (c : Crypto) (db : DBState) (caseId password : String) :
    Bool × DBState :=
  (verifyPassword c db caseId password, db)

/-- The stateful view of `deriveKeyForCase`: the source reads the case
record and writes only the in-memory cache, never the persistent store. -/
def deriveKeyForCaseS (c : Crypto) (db : DBState) (cache : KeyCache) (now : Int)
    (caseId password : String) :
    Except KeyManagerError (String × KeyCache) × DBState :=
  (deriveKeyForCase c db cache now caseId password, db)

/-- Embeds `SecureKeyManager.getKeyForCustodyLog(caseId, password?)`
(`src/lib/target-acquisition.ts` lines 510-524): returns the cached key
when fresh; otherwise throws `PasswordRequired` when the optional
password argument is absent (or falsy, i.e. the empty string), and
otherwise defers to `deriveKeyForCase`. -/
def getKeyForCustodyLog (c : Crypto) (db : DBState) (cache : KeyCache) (now : Int)
    (caseId : String) (password : Option String) :
    Except KeyManagerError (String × KeyCache) :=
  match freshCachedKey cache now caseId with
  | some k => .ok (k, cache)
  | none =>
    if password.getD "" = "" then .error .passwordRequired
    else deriveKeyForCase c db cache now caseId (password.getD "")

end SecureKeyManager

/-! ## ADBBridge command and path validation (`src/lib/adb-bridge.ts`)

The source tests each string against anchored JavaScript regular
expressions.  Each regex is embedded as an executable matcher over the
character list of the string; the character classes below are the classes
of the source regexes. -/

namespace ADBBridge

/-- The class `[a-z]`. -/
def lowerAlpha (ch : Char) : Bool := 'a' ≤ ch && ch ≤ 'z'

/-- The class `[A-Z]`. -/
def upperAlpha (ch : Char) : Bool := 'A' ≤ ch && ch ≤ 'Z'

/-- The class `[0-9]`. -/
def digitChar (ch : Char) : Bool := '0' ≤ ch && ch ≤ '9'

/-- The class `[a-z0-9._]` (the `getprop` property-name tail and the
package-name tail of the app-database and app-files path patterns). -/
def propNameChar (ch : Char) : Bool :=
  lowerAlpha ch || digitChar ch || ch = '.' || ch = '_'

/-- The class `[a-zA-Z0-9_\-\/\.]` (the `ls` argument group and the
SD-card / emulated-storage / app-files path tails). -/
def pathChar (ch : Char) : Bool :=
  lowerAlpha ch || upperAlpha ch || digitChar ch
    || ch = '_' || ch = '-' || ch = '/' || ch = '.'

/-- The class `[a-zA-Z0-9_\-\.]` (the database file-name part). -/
def dbFileChar (ch : Char) : Bool :=
  lowerAlpha ch || upperAlpha ch || digitChar ch
    || ch = '_' || ch = '-' || ch = '.'

/-- The ASCII members of the JavaScript regex class `\s`. -/
def jsSpace (ch : Char) : Bool :=
  ch = ' ' || ch = '\t' || ch = '\n' || ch = '\r' || ch = '\x0b' || ch = '\x0c'

/-- The class of the `dangerousChars` regex `[;&|<>$`(){}[\]\\]` tested by
both `validateCommand` and `validatePath`. -/
def dangerousChar (ch : Char) : Bool :=
  ch = ';' || ch = '&' || ch = '|' || ch = '<' || ch = '>' || ch = '$'
    || ch = '\x60' || ch = '(' || ch = ')' || ch = '\x7b' || ch = '\x7d'
    || ch = '[' || ch = ']' || ch = '\\'

/-- One-or-more repetition of a character class, anchored to the end of
the string (`[...]+$`). -/
def classPlus (cls : Char → Bool) (l : List Char) : Bool :=
  !l.isEmpty && l.all cls

/-- An anchored regex of the form `^LITERAL[...]+$`: the fixed lead
followed by one or more characters of a class. -/
def leadClassPlus (lead : String) (cls : Char → Bool) (s : String) : Bool :=
  match dropLead lead.data s.data with
  | some rest => classPlus cls rest
  | none => false

/-- The regex `^getprop ro\.[a-z0-9._]+$` (`ALLOWED_COMMANDS.getprop`). -/
def matchGetprop (s : String) : Bool :=
  leadClassPlus "getprop ro." propNameChar s

/-- The tail `\s+-[a-z]$` of the `pm_list` regex, after at least one
whitespace character has been seen. -/
def flagTail : List Char → Bool
  | [] => false
  | ch :: rest =>
    if jsSpace ch then flagTail rest
    else
      ch = '-' && (match rest with
        | [d] => lowerAlpha d
        | _ => false)

/-- The regex `^pm list packages(?:\s+-[a-z])?$` (`ALLOWED_COMMANDS.pm_list`). -/
def matchPmList (s : String) : Bool :=
  match dropLead "pm list packages".data s.data with
  | some [] => true
  | some (ch :: rest) => jsSpace ch && flagTail rest
  | none => false

/-- The regex `^su -c "id"$` (`ALLOWED_COMMANDS.su_id`). -/
def matchSuId (s : String) : Bool :=
  s == "su -c \"id\""

/-- The regex `^ls -la ([a-zA-Z0-9_\-\/\.]+)$` (`ALLOWED_COMMANDS.ls`). -/
def matchLs (s : String) : Bool :=
  leadClassPlus "ls -la " pathChar s

/-- Embeds `ADBBridge.validateCommand(command)` (`src/lib/adb-bridge.ts`):
the command must match one of the four `ALLOWED_COMMANDS` regexes, and is
additionally rejected when it contains a character of the
`dangerousChars` class.  `true` means the source returns normally;
`false` means it throws a security error. -/
def validateCommand (command : String) : Bool :=
  let isAllowed :=
    matchGetprop command || matchPmList command || matchSuId command || matchLs command
  isAllowed && !(command.data.any dangerousChar)

/-- The regex `^\/sdcard\/[a-zA-Z0-9_\-\/\.]+$`
(`ALLOWED_PATH_PATTERNS[0]`). -/
def matchSdcard (s : String) : Bool :=
  leadClassPlus "/sdcard/" pathChar s

/-- The regex `^\/storage\/emulated\/0\/[a-zA-Z0-9_\-\/\.]+$`
(`ALLOWED_PATH_PATTERNS[1]`). -/
def matchEmulated (s : String) : Bool :=
  leadClassPlus "/storage/emulated/0/" pathChar s

/-- The package-name part `[a-z][a-z0-9._]*` of the two `/data/data/`
path patterns. -/
def matchPackageName : List Char → Bool
  | [] => false
  | p :: ps => lowerAlpha p && ps.all propNameChar

/-- The file part `[a-zA-Z0-9_\-\.]+\.db$`: a nonempty stem over the file
class followed by the literal `.db` (checked from the reversed list). -/
def matchDbFile (l : List Char) : Bool :=
  l.all dbFileChar &&
    (match dropLead ['b', 'd', '.'] l.reverse with
     | some stemRev => !stemRev.isEmpty
     | none => false)

/-- The regex
`^\/data\/data\/[a-z][a-z0-9._]*\/databases\/[a-zA-Z0-9_\-\.]+\.db$`
(`ALLOWED_PATH_PATTERNS[2]`).  The package class excludes `/`, so the
package part is exactly the segment before the first slash. -/
def matchAppDb (s : String) : Bool :=
  match dropLead "/data/data/".data s.data with
  | none => false
  | some rest =>
    matchPackageName (rest.takeWhile (fun ch => !(ch = '/'))) &&
      (match dropLead "/databases/".data (rest.dropWhile (fun ch => !(ch = '/'))) with
       | some fileName => matchDbFile fileName
       | none => false)

/-- The regex
`^\/data\/data\/[a-z][a-z0-9._]*\/files\/[a-zA-Z0-9_\-\/\.]+$`
(`ALLOWED_PATH_PATTERNS[3]`). -/
def matchAppFiles (s : String) : Bool :=
  match dropLead "/data/data/".data s.data with
  | none => false
  | some rest =>
    matchPackageName (rest.takeWhile (fun ch => !(ch = '/'))) &&
      (match dropLead "/files/".data (rest.dropWhile (fun ch => !(ch = '/'))) with
       | some t => classPlus pathChar t
       | none => false)

/-- The `path.includes('..')` test of `validatePath`. -/
def hasDotDot : List Char → Bool
  | [] => false
  | [_] => false
  | a :: b :: rest => (a = '.' && b = '.') || hasDotDot (b :: rest)

/-- Embeds `ADBBridge.validatePath(path)` (`src/lib/adb-bridge.ts`):
rejects a path containing `..`, then requires a match against one of the
four `ALLOWED_PATH_PATTERNS`, then rejects on the `dangerousChars`
class.  `true` means the source returns normally. -/
def validatePath (path : String) : Bool :=
  if hasDotDot path.data then false
  else
    let isAllowed :=
      matchSdcard path || matchEmulated path || matchAppDb path || matchAppFiles path
    isAllowed && !(path.data.any dangerousChar)

/-! ### Declarative whitelist shapes

The shapes below are written from the specification's words (a property
read, a package list with at most one single-letter flag, the exact
identity check, a constrained directory listing; the four allowed path
shapes) and are proved equivalent to the executable matchers embedded
from the source regexes. -/

/-- A `getprop ro.*` property read. -/
def GetpropShape (s : String) : Prop :=
  ∃ t : List Char, s.data = "getprop ro.".data ++ t ∧ t ≠ [] ∧
    ∀ ch ∈ t, propNameChar ch = true

/-- A `pm list packages` command, bare or with one single-letter flag
after whitespace. -/
def PmListShape (s : String) : Prop :=
  s = "pm list packages" ∨
    ∃ (w : List Char) (d : Char),
      s.data = "pm list packages".data ++ (w ++ ['-', d]) ∧ w ≠ [] ∧
        (∀ ch ∈ w, jsSpace ch = true) ∧ lowerAlpha d = true

/-- An `ls -la` directory listing with a constrained path group. -/
def LsShape (s : String) : Prop :=
  ∃ t : List Char, s.data = "ls -la ".data ++ t ∧ t ≠ [] ∧
    ∀ ch ∈ t, pathChar ch = true

/-- One of the four fixed whitelist command shapes. -/
def CommandWhitelisted (s : String) : Prop :=
  GetpropShape s ∨ PmListShape s ∨ s = "su -c \"id\"" ∨ LsShape s

/-- SD-card storage under `/sdcard/`. -/
def SdcardShape (s : String) : Prop :=
  ∃ t : List Char, s.data = "/sdcard/".data ++ t ∧ t ≠ [] ∧
    ∀ ch ∈ t, pathChar ch = true

/-- Emulated storage under `/storage/emulated/0/`. -/
def EmulatedShape (s : String) : Prop :=
  ∃ t : List Char, s.data = "/storage/emulated/0/".data ++ t ∧ t ≠ [] ∧
    ∀ ch ∈ t, pathChar ch = true

/-- A package name `[a-z][a-z0-9._]*`. -/
def PackageNameShape (pkg : List Char) : Prop :=
  ∃ (p : Char) (ps : List Char), pkg = p :: ps ∧ lowerAlpha p = true ∧
    ∀ ch ∈ ps, propNameChar ch = true

/-- A per-app `.db` database file under the per-package databases path. -/
def AppDbShape (s : String) : Prop :=
  ∃ (pkg stem : List Char),
    s.data = "/data/data/".data ++ (pkg ++ ("/databases/".data ++ (stem ++ ".db".data))) ∧
    PackageNameShape pkg ∧ stem ≠ [] ∧ ∀ ch ∈ stem, dbFileChar ch = true

/-- A per-app files directory under the per-package files path. -/
def AppFilesShape (s : String) : Prop :=
  ∃ (pkg t : List Char),
    s.data = "/data/data/".data ++ (pkg ++ ("/files/".data ++ t)) ∧
    PackageNameShape pkg ∧ t ≠ [] ∧ ∀ ch ∈ t, pathChar ch = true

/-- One of the four fixed anchored path shapes. -/
def PathWhitelisted (s : String) : Prop :=
  SdcardShape s ∨ EmulatedShape s ∨ AppDbShape s ∨ AppFilesShape s

/-- The path contains the parent-directory traversal substring `..`. -/
def ContainsDotDot (s : String) : Prop :=
  ∃ l1 l2 : List Char, s.data = l1 ++ '.' :: '.' :: l2

/-! ### Matchers agree with the declarative shapes -/

theorem classPlus_iff (cls : Char → Bool) (l : List Char) :
    classPlus cls l = true ↔ l ≠ [] ∧ ∀ ch ∈ l, cls ch = true := by
  simp [classPlus, List.all_eq_true, List.isEmpty_iff]

theorem leadClassPlus_iff (lead : String) (cls : Char → Bool) (s : String) :
    leadClassPlus lead cls s = true ↔
      ∃ t : List Char, s.data = lead.data ++ t ∧ t ≠ [] ∧ ∀ ch ∈ t, cls ch = true := by
  unfold leadClassPlus
  cases h : dropLead lead.data s.data with
  | none =>
    constructor
    · intro hf
      cases hf
    · rintro ⟨t, ht, -, -⟩
      rw [dropLead_eq_some.mpr ht] at h
      cases h
  | some rest =>
    have hs : s.data = lead.data ++ rest := dropLead_eq_some.mp h
    rw [classPlus_iff]
    constructor
    · rintro ⟨hne, hall⟩
      exact ⟨rest, hs, hne, hall⟩
    · rintro ⟨t, ht, hne, hall⟩
      have heq : t = rest := by
        have : lead.data ++ t = lead.data ++ rest := ht ▸ hs
        exact List.append_cancel_left this
      subst heq
      exact ⟨hne, hall⟩

theorem matchGetprop_iff (s : String) :
    matchGetprop s = true ↔ GetpropShape s :=
  leadClassPlus_iff "getprop ro." propNameChar s

theorem matchLs_iff (s : String) :
    matchLs s = true ↔ LsShape s :=
  leadClassPlus_iff "ls -la " pathChar s

theorem matchSdcard_iff (s : String) :
    matchSdcard s = true ↔ SdcardShape s :=
  leadClassPlus_iff "/sdcard/" pathChar s

theorem matchEmulated_iff (s : String) :
    matchEmulated s = true ↔ EmulatedShape s :=
  leadClassPlus_iff "/storage/emulated/0/" pathChar s

theorem flagTail_iff (l : List Char) :
    flagTail l = true ↔ ∃ (w : List Char) (d : Char),
      l = w ++ ['-', d] ∧ (∀ ch ∈ w, jsSpace ch = true) ∧ lowerAlpha d = true := by
  induction l with
  | nil =>
    constructor
    · intro h
      cases h
    · rintro ⟨w, d, hw, -, -⟩
      exact absurd hw (by simp)
  | cons ch rest ih =>
    unfold flagTail
    by_cases hsp : jsSpace ch = true
    · rw [if_pos hsp, ih]
      constructor
      · rintro ⟨w, d, hw, hall, hd⟩
        refine ⟨ch :: w, d, by simp [hw], ?_, hd⟩
        intro x hx
        rcases List.mem_cons.mp hx with hx | hx
        · subst hx
          exact hsp
        · exact hall x hx
      · rintro ⟨w, d, hw, hall, hd⟩
        cases w with
        | nil =>
          simp only [List.nil_append, List.cons.injEq] at hw
          rw [hw.1] at hsp
          exact absurd hsp (by decide)
        | cons a w2 =>
          simp only [List.cons_append, List.cons.injEq] at hw
          exact ⟨w2, d, hw.2, fun x hx => hall x (by simp [hx]), hd⟩
    · rw [if_neg hsp]
      constructor
      · intro h
        rw [Bool.and_eq_true] at h
        have hdash : ch = '-' := of_decide_eq_true h.1
        cases rest with
        | nil =>
          cases h.2
        | cons d rest2 =>
          cases rest2 with
          | nil =>
            exact ⟨[], d, by simp [hdash], by simp, h.2⟩
          | cons e rest3 =>
            cases h.2
      · rintro ⟨w, d, hw, hall, hd⟩
        cases w with
        | nil =>
          simp only [List.nil_append, List.cons.injEq] at hw
          rw [Bool.and_eq_true]
          constructor
          · rw [hw.1]
            decide
          · rw [hw.2]
            exact hd
        | cons a w2 =>
          simp only [List.cons_append, List.cons.injEq] at hw
          have hq : jsSpace ch = true := hw.1 ▸ hall a (by simp)
          exact absurd hq hsp

theorem matchPmList_iff (s : String) :
    matchPmList s = true ↔ PmListShape s := by
  unfold matchPmList
  cases h : dropLead "pm list packages".data s.data with
  | none =>
    constructor
    · intro hf
      cases hf
    · intro hs
      rcases hs with hs | ⟨w, d, hw, -, -, -⟩
      · have : s.data = "pm list packages".data ++ [] := by simp [hs]
        rw [dropLead_eq_some.mpr this] at h
        cases h
      · rw [dropLead_eq_some.mpr hw] at h
        cases h
  | some rest =>
    have hs : s.data = "pm list packages".data ++ rest := dropLead_eq_some.mp h
    cases rest with
    | nil =>
      constructor
      · intro _
        left
        exact stringDataInj (by simpa using hs)
      · intro _
        rfl
    | cons ch rest2 =>
      simp only [Bool.and_eq_true]
      constructor
      · rintro ⟨hspace, htail⟩
        rcases (flagTail_iff rest2).mp htail with ⟨w, d, hw, hall, hd⟩
        right
        refine ⟨ch :: w, d, ?_, by simp, ?_, hd⟩
        · rw [hs, hw]
          simp
        · intro x hx
          rcases List.mem_cons.mp hx with hx | hx
          · subst hx
            exact hspace
          · exact hall x hx
      · intro hshape
        rcases hshape with hshape | ⟨w, d, hw, hwne, hall, hd⟩
        · exfalso
          rw [hshape] at hs
          have h2 : "pm list packages".data ++ ([] : List Char)
              = "pm list packages".data ++ ch :: rest2 := by
            simp only [List.append_nil]
            exact hs
          cases List.append_cancel_left h2
        · have heq : w ++ ['-', d] = ch :: rest2 :=
            List.append_cancel_left (hw.symm.trans hs)
          cases w with
          | nil =>
            exfalso
            exact hwne rfl
          | cons a w2 =>
            simp only [List.cons_append, List.cons.injEq] at heq
            constructor
            · rw [← heq.1]
              exact hall a (by simp)
            · rw [← heq.2]
              exact (flagTail_iff (w2 ++ ['-', d])).mpr
                ⟨w2, d, rfl, fun x hx => hall x (by simp [hx]), hd⟩

theorem matchPackageName_iff (l : List Char) :
    matchPackageName l = true ↔ PackageNameShape l := by
  cases l with
  | nil =>
    constructor
    · intro h
      cases h
    · rintro ⟨p, ps, hl, -, -⟩
      cases hl
  | cons p ps =>
    unfold matchPackageName
    rw [Bool.and_eq_true, List.all_eq_true]
    constructor
    · rintro ⟨hp, hps⟩
      exact ⟨p, ps, rfl, hp, hps⟩
    · rintro ⟨q, qs, hl, hq, hqs⟩
      injection hl with h1 h2
      subst h1
      subst h2
      exact ⟨hq, hqs⟩

theorem propNameChar_noSlash {ch : Char} (h : propNameChar ch = true) :
    (!(ch = '/') : Bool) = true := by
  by_cases hch : ch = '/'
  · subst hch
    exact absurd h (by decide)
  · simp [hch]

theorem lowerAlpha_noSlash {ch : Char} (h : lowerAlpha ch = true) :
    (!(ch = '/') : Bool) = true := by
  by_cases hch : ch = '/'
  · subst hch
    exact absurd h (by decide)
  · simp [hch]

theorem pkgShape_noSlash {pkg : List Char} (h : PackageNameShape pkg) :
    ∀ ch ∈ pkg, (!(ch = '/') : Bool) = true := by
  rcases h with ⟨p, ps, hl, hp, hps⟩
  subst hl
  intro ch hch
  rcases List.mem_cons.mp hch with hch | hch
  · subst hch
    exact lowerAlpha_noSlash hp
  · exact propNameChar_noSlash (hps ch hch)

theorem splitAtSlash {pkg r : List Char} (h : ∀ ch ∈ pkg, (!(ch = '/') : Bool) = true) :
    (pkg ++ '/' :: r).takeWhile (fun ch => !(ch = '/')) = pkg ∧
    (pkg ++ '/' :: r).dropWhile (fun ch => !(ch = '/')) = '/' :: r := by
  induction pkg with
  | nil =>
    simp [List.takeWhile, List.dropWhile]
  | cons a ps ih =>
    have ha : (!(a = '/') : Bool) = true := h a (by simp)
    have hps := ih (fun ch hch => h ch (by simp [hch]))
    constructor
    · simp only [List.cons_append, List.takeWhile_cons, ha, if_true]
      rw [hps.1]
    · simp only [List.cons_append, List.dropWhile_cons, ha, if_true]
      exact hps.2

theorem dbData_eq : (".db" : String).data = ['.', 'd', 'b'] := by decide

theorem matchDbFile_iff (l : List Char) :
    matchDbFile l = true ↔
      ∃ stem : List Char, l = stem ++ ".db".data ∧ stem ≠ [] ∧
        ∀ ch ∈ stem, dbFileChar ch = true := by
  unfold matchDbFile
  rw [Bool.and_eq_true]
  constructor
  · rintro ⟨hall, hrev⟩
    cases hdrop : dropLead ['b', 'd', '.'] l.reverse with
    | none =>
      rw [hdrop] at hrev
      cases hrev
    | some stemRev =>
      rw [hdrop] at hrev
      have hsne : stemRev ≠ [] := by
        cases stemRev with
        | nil => cases hrev
        | cons x xs => simp
      have hlr : l.reverse = ['b', 'd', '.'] ++ stemRev := dropLead_eq_some.mp hdrop
      have hl : l = stemRev.reverse ++ ".db".data := by
        rw [dbData_eq]
        have h2 := congrArg List.reverse hlr
        simpa using h2
      refine ⟨stemRev.reverse, hl, ?_, ?_⟩
      · intro hnil
        exact hsne (by simpa using congrArg List.reverse hnil)
      · intro ch hch
        have hmem : ch ∈ l := by
          rw [hl]
          exact List.mem_append_left _ hch
        exact List.all_eq_true.mp hall ch hmem
  · rintro ⟨stem, hl, hne, hstem⟩
    subst hl
    have hrev : (stem ++ ".db".data).reverse = ['b', 'd', '.'] ++ stem.reverse := by
      rw [dbData_eq]
      simp
    constructor
    · rw [List.all_eq_true]
      intro ch hch
      rcases List.mem_append.mp hch with hch | hch
      · exact hstem ch hch
      · have hch3 : ch = '.' ∨ ch = 'd' ∨ ch = 'b' := by
          rw [dbData_eq] at hch
          simpa using hch
        rcases hch3 with rfl | rfl | rfl <;> decide
    · rw [dropLead_eq_some.mpr hrev]
      cases hst : stem.reverse with
      | nil =>
        exact absurd (List.reverse_eq_nil_iff.mp hst) hne
      | cons x xs =>
        simp

theorem databasesData_eq :
    ("/databases/" : String).data = '/' :: "databases/".data := by decide

theorem filesData_eq :
    ("/files/" : String).data = '/' :: "files/".data := by decide

theorem matchAppDb_iff (s : String) :
    matchAppDb s = true ↔ AppDbShape s := by
  unfold matchAppDb
  cases h : dropLead "/data/data/".data s.data with
  | none =>
    constructor
    · intro hf
      cases hf
    · rintro ⟨pkg, stem, hdata, -, -, -⟩
      rw [dropLead_eq_some.mpr hdata] at h
      cases h
  | some rest =>
    have hs : s.data = "/data/data/".data ++ rest := dropLead_eq_some.mp h
    rw [Bool.and_eq_true]
    constructor
    · rintro ⟨hpkg, hfile⟩
      have hpkgShape := (matchPackageName_iff _).mp hpkg
      cases hdrop : dropLead "/databases/".data
          (rest.dropWhile (fun ch => !(ch = '/'))) with
      | none =>
        rw [hdrop] at hfile
        cases hfile
      | some fileName =>
        rw [hdrop] at hfile
        rcases (matchDbFile_iff fileName).mp hfile with ⟨stem, hfn, hne, hstem⟩
        have hdw : rest.dropWhile (fun ch => !(ch = '/'))
            = "/databases/".data ++ fileName := dropLead_eq_some.mp hdrop
        refine ⟨rest.takeWhile (fun ch => !(ch = '/')), stem, ?_, hpkgShape, hne, hstem⟩
        calc s.data
            = "/data/data/".data ++ rest := hs
          _ = "/data/data/".data ++
              (rest.takeWhile (fun ch => !(ch = '/'))
                ++ rest.dropWhile (fun ch => !(ch = '/'))) := by
              rw [List.takeWhile_append_dropWhile]
          _ = "/data/data/".data ++
              (rest.takeWhile (fun ch => !(ch = '/'))
                ++ ("/databases/".data ++ (stem ++ ".db".data))) := by
              rw [hdw, hfn]
    · rintro ⟨pkg, stem, hdata, hpkgShape, hne, hstem⟩
      have hcan : "/data/data/".data ++ rest
          = "/data/data/".data
            ++ (pkg ++ ('/' :: ("databases/".data ++ (stem ++ ".db".data)))) := by
        rw [← hs, hdata, databasesData_eq]
        simp
      have hrest : rest = pkg ++ '/' :: ("databases/".data ++ (stem ++ ".db".data)) :=
        List.append_cancel_left hcan
      have hsplit := splitAtSlash
        (r := "databases/".data ++ (stem ++ ".db".data)) (pkgShape_noSlash hpkgShape)
      rw [hrest]
      constructor
      · rw [hsplit.1]
        exact (matchPackageName_iff pkg).mpr hpkgShape
      · rw [hsplit.2]
        have hd2 : dropLead "/databases/".data
            ('/' :: ("databases/".data ++ (stem ++ ".db".data)))
            = some (stem ++ ".db".data) := by
          apply dropLead_eq_some.mpr
          rw [databasesData_eq]
          simp
        rw [hd2]
        exact (matchDbFile_iff _).mpr ⟨stem, rfl, hne, hstem⟩

theorem matchAppFiles_iff (s : String) :
    matchAppFiles s = true ↔ AppFilesShape s := by
  unfold matchAppFiles
  cases h : dropLead "/data/data/".data s.data with
  | none =>
    constructor
    · intro hf
      cases hf
    · rintro ⟨pkg, t, hdata, -, -, -⟩
      rw [dropLead_eq_some.mpr hdata] at h
      cases h
  | some rest =>
    have hs : s.data = "/data/data/".data ++ rest := dropLead_eq_some.mp h
    rw [Bool.and_eq_true]
    constructor
    · rintro ⟨hpkg, hfile⟩
      have hpkgShape := (matchPackageName_iff _).mp hpkg
      cases hdrop : dropLead "/files/".data
          (rest.dropWhile (fun ch => !(ch = '/'))) with
      | none =>
        rw [hdrop] at hfile
        cases hfile
      | some t =>
        rw [hdrop] at hfile
        rcases (classPlus_iff pathChar t).mp hfile with ⟨hne, hall⟩
        have hdw : rest.dropWhile (fun ch => !(ch = '/'))
            = "/files/".data ++ t := dropLead_eq_some.mp hdrop
        refine ⟨rest.takeWhile (fun ch => !(ch = '/')), t, ?_, hpkgShape, hne, hall⟩
        calc s.data
            = "/data/data/".data ++ rest := hs
          _ = "/data/data/".data ++
              (rest.takeWhile (fun ch => !(ch = '/'))
                ++ rest.dropWhile (fun ch => !(ch = '/'))) := by
              rw [List.takeWhile_append_dropWhile]
          _ = "/data/data/".data ++
              (rest.takeWhile (fun ch => !(ch = '/')) ++ ("/files/".data ++ t)) := by
              rw [hdw]
    · rintro ⟨pkg, t, hdata, hpkgShape, hne, hall⟩
      have hcan : "/data/data/".data ++ rest
          = "/data/data/".data ++ (pkg ++ ('/' :: ("files/".data ++ t))) := by
        rw [← hs, hdata, filesData_eq]
        simp
      have hrest : rest = pkg ++ '/' :: ("files/".data ++ t) :=
        List.append_cancel_left hcan
      have hsplit := splitAtSlash
        (r := "files/".data ++ t) (pkgShape_noSlash hpkgShape)
      rw [hrest]
      constructor
      · rw [hsplit.1]
        exact (matchPackageName_iff pkg).mpr hpkgShape
      · rw [hsplit.2]
        have hd2 : dropLead "/files/".data ('/' :: ("files/".data ++ t)) = some t := by
          apply dropLead_eq_some.mpr
          rw [filesData_eq]
          simp
        rw [hd2]
        exact (classPlus_iff pathChar t).mpr ⟨hne, hall⟩

theorem hasDotDot_iff (l : List Char) :
    hasDotDot l = true ↔ ∃ l1 l2 : List Char, l = l1 ++ '.' :: '.' :: l2 := by
  induction l with
  | nil =>
    constructor
    · intro h
      cases h
    · rintro ⟨l1, l2, h⟩
      cases l1 with
      | nil => cases h
      | cons x xs => cases h
  | cons a rest ih =>
    cases rest with
    | nil =>
      constructor
      · intro h
        cases h
      · rintro ⟨l1, l2, h⟩
        cases l1 with
        | nil => cases h
        | cons x xs =>
          injection h with h1 h2
          cases xs with
          | nil => cases h2
          | cons y ys => cases h2
    | cons b rest2 =>
      unfold hasDotDot
      rw [Bool.or_eq_true, Bool.and_eq_true]
      constructor
      · rintro (⟨ha, hb⟩ | htail)
        · exact ⟨[], rest2, by
            simp [of_decide_eq_true ha, of_decide_eq_true hb]⟩
        · rcases (ih).mp htail with ⟨l1, l2, hl⟩
          exact ⟨a :: l1, l2, by simp [hl]⟩
      · rintro ⟨l1, l2, hl⟩
        cases l1 with
        | nil =>
          left
          injection hl with h1 h2
          injection h2 with h2 h3
          subst h1
          subst h2
          exact ⟨by decide, by decide⟩
        | cons x xs =>
          right
          injection hl with h1 h2
          exact ih.mpr ⟨xs, l2, h2⟩

/-- The whitelist disjunction of `validateCommand` agrees with the four
declarative command shapes. -/
theorem commandAllowed_iff (s : String) :
    (matchGetprop s || matchPmList s || matchSuId s || matchLs s) = true ↔
      CommandWhitelisted s := by
  simp only [Bool.or_eq_true]
  rw [matchGetprop_iff, matchPmList_iff, matchLs_iff]
  unfold CommandWhitelisted
  constructor
  · rintro (((h | h) | h) | h)
    · exact Or.inl h
    · exact Or.inr (Or.inl h)
    · refine Or.inr (Or.inr (Or.inl ?_))
      exact eq_of_beq (by simpa [matchSuId] using h)
    · exact Or.inr (Or.inr (Or.inr h))
  · rintro (h | h | h | h)
    · exact Or.inl (Or.inl (Or.inl h))
    · exact Or.inl (Or.inl (Or.inr h))
    · refine Or.inl (Or.inr ?_)
      simp [matchSuId, h]
    · exact Or.inr h

/-- The whitelist disjunction of `validatePath` agrees with the four
declarative path shapes. -/
theorem pathAllowed_iff (s : String) :
    (matchSdcard s || matchEmulated s || matchAppDb s || matchAppFiles s) = true ↔
      PathWhitelisted s := by
  simp only [Bool.or_eq_true]
  rw [matchSdcard_iff, matchEmulated_iff, matchAppDb_iff, matchAppFiles_iff]
  unfold PathWhitelisted
  constructor
  · rintro (((h | h) | h) | h)
    · exact Or.inl h
    · exact Or.inr (Or.inl h)
    · exact Or.inr (Or.inr (Or.inl h))
    · exact Or.inr (Or.inr (Or.inr h))
  · rintro (h | h | h | h)
    · exact Or.inl (Or.inl (Or.inl h))
    · exact Or.inl (Or.inl (Or.inr h))
    · exact Or.inl (Or.inr h)
    · exact Or.inr h

theorem validateCommand_iff (s : String) :
    validateCommand s = true ↔
      CommandWhitelisted s ∧ ∀ ch ∈ s.data, dangerousChar ch = false := by
  unfold validateCommand
  rw [Bool.and_eq_true, commandAllowed_iff, Bool.not_eq_true']
  constructor
  · rintro ⟨hw, hdang⟩
    refine ⟨hw, ?_⟩
    intro ch hch
    by_contra hne
    have : s.data.any dangerousChar = true :=
      List.any_eq_true.mpr ⟨ch, hch, by simpa using hne⟩
    rw [this] at hdang
    cases hdang
  · rintro ⟨hw, hall⟩
    refine ⟨hw, ?_⟩
    rw [Bool.eq_false_iff]
    intro hany
    rcases List.any_eq_true.mp hany with ⟨ch, hch, hd⟩
    rw [hall ch hch] at hd
    cases hd

theorem validatePath_iff (s : String) :
    validatePath s = true ↔
      ¬ ContainsDotDot s ∧ PathWhitelisted s ∧
        ∀ ch ∈ s.data, dangerousChar ch = false := by
  unfold validatePath
  by_cases hdd : hasDotDot s.data = true
  · rw [if_pos hdd]
    constructor
    · intro hf
      cases hf
    · rintro ⟨hnot, -, -⟩
      exact absurd ((hasDotDot_iff s.data).mp hdd) hnot
  · rw [if_neg hdd]
    rw [Bool.and_eq_true, pathAllowed_iff, Bool.not_eq_true']
    constructor
    · rintro ⟨hw, hdang⟩
      refine ⟨?_, hw, ?_⟩
      · intro hc
        exact hdd ((hasDotDot_iff s.data).mpr hc)
      · intro ch hch
        by_contra hne
        have : s.data.any dangerousChar = true :=
          List.any_eq_true.mpr ⟨ch, hch, by simpa using hne⟩
        rw [this] at hdang
        cases hdang
    · rintro ⟨-, hw, hall⟩
      refine ⟨hw, ?_⟩
      rw [Bool.eq_false_iff]
      intro hany
      rcases List.any_eq_true.mp hany with ⟨ch, hch, hd⟩
      rw [hall ch hch] at hd
      cases hd

end ADBBridge

end MobileDigScope
namespace MobileDigScope

/-! ## Custody-log call sites outside `database.ts`

`createCustodyLog(logData, hmacKey)` takes the HMAC key as its second
argument.  The two acquisition engines instead place a `hmacKey` property
inside the first (log-data) object and pass no second argument at all, so
at run time the `hmacKey` parameter is `undefined`.  A call site is
recorded as the pair of what it puts where. -/

/-- What one call site of `createCustodyLog` supplies: the log-data
object (with any stray `hmacKey` property it carries) and the second
positional argument (`none` = the argument is absent / `undefined`). -/
structure CustodyLogCallArgs where
  data : CustodyLogData
  strayHmacKeyField : Option String
  hmacKeyArg : Option String
deriving DecidableEq, Repr

namespace ForensicDatabase

/-- The `case_created` custody call of `ForensicDatabase.createCase`
(`src/lib/database.ts` lines 116-123): the second argument is
`calculateHMAC('hmac_key_derivation', encryptionKey)`. -/
def createCaseCustodyCall (c : Crypto) (caseId caseName examiner : String)
    (encryptionKey : String) : CustodyLogCallArgs :=
  { data :=
      { caseId := caseId
        action := .case_created
        examiner := examiner
        details := "Case \"" ++ caseName ++ "\" created with AES-256 encryption"
        deviceIdentifier := none }
    strayHmacKeyField := none
    hmacKeyArg := some (ForensicCrypto.calculateHMAC c "hmac_key_derivation" encryptionKey) }

/-- The `artifact_added` custody call of `ForensicDatabase.addArtifact`
(`src/lib/database.ts` lines 166-175): the second argument is
`calculateHMAC('hmac_key_derivation', encryptionKey)`. -/
def addArtifactCustodyCall (c : Crypto) (caseId examiner artifactName artifactType : String)
    (encryptionKey : String) : CustodyLogCallArgs :=
  { data :=
      { caseId := caseId
        action := .artifact_added
        examiner := examiner
        details := "Artifact \"" ++ artifactName ++ "\" added (" ++ artifactType ++ ")"
        deviceIdentifier := none }
    strayHmacKeyField := none
    hmacKeyArg := some (ForensicCrypto.calculateHMAC c "hmac_key_derivation" encryptionKey) }

end ForensicDatabase

namespace TargetAcquisitionEngine

/-- The `target_acquisition_started` custody call of
`TargetAcquisitionEngine.startLogicalAcquisition`
(`src/lib/target-acquisition.ts` lines 57-65): the raw derived case key
(`ForensicCrypto.deriveKey(password, forensicCase.encryptionSalt)`) is
placed in a `hmacKey` property of the log-data object and no second
argument is passed. -/
def startCustodyCall (c : Crypto) (forensicCase : ForensicCase)
    (password : String) (details : String) : CustodyLogCallArgs :=
  let encryptionKey := ForensicCrypto.deriveKey c password forensicCase.encryptionSalt
  { data :=
      { caseId := forensicCase.id
        action := .target_acquisition_started
        examiner := forensicCase.examiner
        details := details
        deviceIdentifier := none }
    strayHmacKeyField := some encryptionKey
    hmacKeyArg := none }

/-- The `target_acquisition_completed` custody call of
`TargetAcquisitionEngine.startLogicalAcquisition`
(`src/lib/target-acquisition.ts` lines 78-85): same shape as the start
call. -/
def completeCustodyCall (c : Crypto) (forensicCase : ForensicCase)
    (password : String) : CustodyLogCallArgs :=
  let encryptionKey := ForensicCrypto.deriveKey c password forensicCase.encryptionSalt
  { data :=
      { caseId := forensicCase.id
        action := .target_acquisition_completed
        examiner := forensicCase.examiner
        details := "Target device acquisition completed successfully"
        deviceIdentifier := none }
    strayHmacKeyField := some encryptionKey
    hmacKeyArg := none }

end TargetAcquisitionEngine

namespace AcquisitionEngine

/-- The `acquisition_started` custody call of
`AcquisitionEngine.startLogicalAcquisition` (`src/lib/acquisition.ts`
lines 397-404): `forensicCase.encryptionKey!` — a property that does not
exist on the `ForensicCase` interface, hence `undefined` — is placed in a
`hmacKey` property of the log-data object and no second argument is
passed. -/
def startCustodyCall (caseId examiner : String) : CustodyLogCallArgs :=
  { data :=
      { caseId := caseId
        action := .acquisition_started
        examiner := examiner
        details := "Logical acquisition started"
        deviceIdentifier := none }
    strayHmacKeyField := none
    hmacKeyArg := none }

/-- The `acquisition_completed` custody call of
`AcquisitionEngine.startLogicalAcquisition` (`src/lib/acquisition.ts`
lines 415-422). -/
def completeCustodyCall (caseId examiner : String) : CustodyLogCallArgs :=
  { data :=
      { caseId := caseId
        action := .acquisition_completed
        examiner := examiner
        details := "Logical acquisition completed successfully"
        deviceIdentifier := none }
    strayHmacKeyField := none
    hmacKeyArg := none }

end AcquisitionEngine

/-! ## ReportGenerator (`src/lib/reports.ts`) -/

namespace ReportGenerator

inductive ReportError
  | caseNotFound
  | invalidPassword
deriving DecidableEq, Repr

/-- Embeds the data-gathering part of
`ReportGenerator.generateReport(caseId, password)` (`src/lib/reports.ts`
lines 19-45): loads the case, derives the key from the password and the
stored salt, checks its SHA-256 against the stored verification hash, and
then verifies every custody entry of the case with
`verifyCustodyLogIntegrity(log, encryptionKey)` — the raw derived case
key — pairing each entry with its verification flag. -/
def generateReport (c : Crypto) (db : DBState) (caseId password : String) :
    Except ReportError (List (CustodyLog × Bool)) :=
  match ForensicDatabase.getCase db caseId with
  | none => .error .caseNotFound
  | some forensicCase =>
    let encryptionKey := ForensicCrypto.deriveKey c password forensicCase.encryptionSalt
    let verificationHash := ForensicCrypto.calculateSHA256 c encryptionKey
    if verificationHash ≠ forensicCase.passwordVerificationHash then
      .error .invalidPassword
    else
      .ok ((ForensicDatabase.getCustodyLogs db caseId).map
        (fun log => (log, ForensicDatabase.verifyCustodyLogIntegrity c log encryptionKey)))

end ReportGenerator

/-! ## Artifact opening

The repository has `ForensicCrypto.decrypt` but no operation that checks
a decrypted artifact against its recorded plaintext digest. -/

inductive ArtifactError
  | integrityError
deriving DecidableEq, Repr

/-- Modelled from the spec: `openArtifact(ciphertext, key, iv,
expectedSha256)` of spec section 4.5 is absent from the source (only its
decryption step, `ForensicCrypto.decrypt`, exists in
`src/lib/crypto.ts`).  Following the spec's words, it decrypts, recomputes
`sha256` over the result, fails with `IntegrityError` when that digest
differs from `expectedSha256`, and returns the plaintext otherwise. -/
def openArtifact (c : Crypto) (ciphertext key iv expectedSha256 : String) :
    Except ArtifactError String :=
  let plaintext := ForensicCrypto.decrypt c ciphertext key iv
  if ForensicCrypto.calculateSHA256 c plaintext ≠ expectedSha256 then
    .error .integrityError
  else
    .ok plaintext

/-! ## Persisted string fields

Every string-valued field a record carries into the persistent store.
Non-string fields (`size : number`, `isEncrypted : boolean`, the status
and action enums are included through their string values) cannot hold a
key or a password. -/

def ForensicCase.fieldStrings (fc : ForensicCase) : List String :=
  [fc.id, fc.name, fc.examiner, fc.createdAt, fc.updatedAt, fc.status.toText]
    ++ fc.deviceInfo.toList ++ fc.legalAuthorization.toList
    ++ [fc.encryptionSalt, fc.passwordVerificationHash]

def Artifact.fieldStrings (a : Artifact) : List String :=
  [a.id, a.caseId, a.type, a.name, a.filePath, a.sha256, a.md5, a.createdAt]
    ++ a.metadata.toList ++ a.iv.toList

def CustodyLog.fieldStrings (e : CustodyLog) : List String :=
  [e.id, e.caseId, e.action.toText, e.examiner, e.timestamp, e.details]
    ++ e.deviceIdentifier.toList ++ [e.hmacSignature]

/-- All string values held in the persistent store. -/
def DBState.persistedStrings (db : DBState) : List String :=
  (db.cases.map ForensicCase.fieldStrings).flatten
    ++ (db.artifacts.map Artifact.fieldStrings).flatten
    ++ (db.custodyLogs.map CustodyLog.fieldStrings).flatten

/-- The `case_created` ledger entry `createCase` appends: signed with
`calculateHMAC('hmac_key_derivation', encryptionKey)`, one keyed
transform away from the derived case key. -/
def ForensicDatabase.createCaseLogEntry (c : Crypto)
    (caseId salt logId logTs : String) (caseData : ForensicDatabase.CaseInput)
    (password : String) : CustodyLog :=
  ForensicDatabase.mkCustodyLog c logId logTs
    { caseId := caseId
      action := .case_created
      examiner := caseData.examiner
      details := "Case \"" ++ caseData.name ++ "\" created with AES-256 encryption"
      deviceIdentifier := none }
    (ForensicCrypto.calculateHMAC c "hmac_key_derivation"
      (ForensicCrypto.deriveKey c password salt))

/-! ## A concrete crypto instance for witnesses

A tagging instance of the primitives: every function returns its inputs
wrapped in a distinctive marker, which makes the primitives injective and
the cipher invertible, so hypotheses about them can be discharged on
concrete inputs by computation. -/

def toySha256 (data : String) : String := "sha256[" ++ data ++ "]"

def toyEncrypt (data key iv : String) : String :=
  "enc[" ++ key ++ "|" ++ iv ++ "|" ++ data ++ "]"

def toyDecrypt (ciphertext key iv : String) : String :=
  match dropLead ("enc[" ++ key ++ "|" ++ iv ++ "|").data ciphertext.data with
  | some rest => String.mk rest.dropLast
  | none => ""

def toyCrypto : Crypto :=
  { sha256 := toySha256
    md5 := fun data => "md5[" ++ data ++ "]"
    hmacSHA256 := fun data key => "hmac[" ++ key ++ "|" ++ data ++ "]"
    pbkdf2 := fun password salt => "kdf[" ++ password ++ "|" ++ salt ++ "]"
    aesEncrypt := toyEncrypt
    aesDecrypt := toyDecrypt }

theorem toySha256_inj : ∀ a b : String, toySha256 a = toySha256 b → a = b := by
  intro a b h
  have hd : "sha256[".data ++ (a.data ++ "]".data)
      = "sha256[".data ++ (b.data ++ "]".data) := by
    have := congrArg String.data h
    simpa [toySha256, String.data_append, List.append_assoc] using this
  exact stringDataInj (List.append_cancel_right (List.append_cancel_left hd))

theorem toyDecrypt_toyEncrypt : ∀ d k iv : String,
    toyDecrypt (toyEncrypt d k iv) k iv = d := by
  intro d k iv
  have hdata : (toyEncrypt d k iv).data
      = ("enc[" ++ k ++ "|" ++ iv ++ "|").data ++ (d.data ++ [']']) := by
    simp [toyEncrypt, String.data_append, List.append_assoc]
  have hdrop : dropLead ("enc[" ++ k ++ "|" ++ iv ++ "|").data (toyEncrypt d k iv).data
      = some (d.data ++ [']']) := dropLead_eq_some.mpr hdata
  have hlast : (d.data ++ [']']).dropLast = d.data := by
    simp
  unfold toyDecrypt
  rw [hdrop]
  show String.mk (d.data ++ [']']).dropLast = d
  rw [hlast]

theorem toyRoundTrip : ∀ d k iv : String,
    toyCrypto.aesDecrypt (toyCrypto.aesEncrypt d k iv) k iv = d := by
  intro d k iv
  exact toyDecrypt_toyEncrypt d k iv

/-! ## Claim theorems -/

/-- C2: For every log data and every hmacKey, the entry returned by
`createCustodyLog` verifies under that same key; `verifyCustodyLogIntegrity`
recomputes the canonical serialization with the signature field excluded and
returns `true` exactly when the HMAC of that serialization under the
supplied key equals the entry's stored signature, so a key whose HMAC
differs verifies `false`. -/
theorem custodySignVerify_spec (c : Crypto) (db : DBState) (newId ts : String)
    (logData : CustodyLogData) (hmacKey : String) (e : CustodyLog) (k : String) :
    ForensicDatabase.verifyCustodyLogIntegrity c
      (ForensicDatabase.createCustodyLog c db newId ts logData hmacKey).1 hmacKey = true
    ∧ (ForensicDatabase.verifyCustodyLogIntegrity c e k = true ↔
        c.hmacSHA256 (serializeForSigning e) k = e.hmacSignature)
    ∧ (c.hmacSHA256 (serializeForSigning e) k ≠ e.hmacSignature →
        ForensicDatabase.verifyCustodyLogIntegrity c e k = false) := by
  refine ⟨?_, ?_, ?_⟩
  · simp only [ForensicDatabase.verifyCustodyLogIntegrity, ForensicDatabase.createCustodyLog,
      ForensicDatabase.mkCustodyLog, ForensicCrypto.verifyHMAC, ForensicCrypto.calculateHMAC]
    rw [beq_iff_eq]
    rfl
  · simp [ForensicDatabase.verifyCustodyLogIntegrity, ForensicCrypto.verifyHMAC,
      ForensicCrypto.calculateHMAC]
  · intro h
    simp only [ForensicDatabase.verifyCustodyLogIntegrity, ForensicCrypto.verifyHMAC,
      ForensicCrypto.calculateHMAC]
    exact beq_eq_false_iff_ne.mpr h

/-- Witness for C2 at the tagging crypto instance: the entry signed with
`"key-1"` verifies under `"key-1"` and fails under `"key-2"`. -/
theorem custodySignVerify_spec_witness :
    ForensicDatabase.verifyCustodyLogIntegrity toyCrypto
      (ForensicDatabase.createCustodyLog toyCrypto DBState.empty "log-1" "t1"
        { caseId := "case-1", action := .case_created, examiner := "Alice",
          details := "created", deviceIdentifier := none } "key-1").1 "key-1" = true
    ∧ ForensicDatabase.verifyCustodyLogIntegrity toyCrypto
      (ForensicDatabase.createCustodyLog toyCrypto DBState.empty "log-1" "t1"
        { caseId := "case-1", action := .case_created, examiner := "Alice",
          details := "created", deviceIdentifier := none } "key-1").1 "key-2" = false :=
  ⟨(custodySignVerify_spec toyCrypto DBState.empty "log-1" "t1"
      { caseId := "case-1", action := .case_created, examiner := "Alice",
        details := "created", deviceIdentifier := none } "key-1"
      (ForensicDatabase.createCustodyLog toyCrypto DBState.empty "log-1" "t1"
        { caseId := "case-1", action := .case_created, examiner := "Alice",
          details := "created", deviceIdentifier := none } "key-1").1 "key-1").1,
   (custodySignVerify_spec toyCrypto DBState.empty "log-1" "t1"
      { caseId := "case-1", action := .case_created, examiner := "Alice",
        details := "created", deviceIdentifier := none } "key-1"
      (ForensicDatabase.createCustodyLog toyCrypto DBState.empty "log-1" "t1"
        { caseId := "case-1", action := .case_created, examiner := "Alice",
          details := "created", deviceIdentifier := none } "key-1").1 "key-2").2.2
     (by decide)⟩

/-- C3: `openArtifact(ciphertext, key, iv, expectedSha256)` decrypts,
recomputes the SHA-256 digest over the decrypted result, fails with an
`IntegrityError` whenever that digest differs from `expectedSha256`, and
returns the plaintext otherwise — successful decryption alone never makes
the operation succeed. -/
theorem openArtifact_spec (c : Crypto) (ct key iv expected : String) :
    (ForensicCrypto.calculateSHA256 c (ForensicCrypto.decrypt c ct key iv) ≠ expected →
      openArtifact c ct key iv expected = .error .integrityError)
    ∧ (ForensicCrypto.calculateSHA256 c (ForensicCrypto.decrypt c ct key iv) = expected →
      openArtifact c ct key iv expected = .ok (ForensicCrypto.decrypt c ct key iv)) := by
  constructor
  · intro h
    simp [openArtifact, h]
  · intro h
    simp [openArtifact, h]

/-- Witness for C3 at the tagging crypto instance: the same well-formed
ciphertext decrypts fine, yet `openArtifact` fails when the expected
digest does not match and succeeds when it does. -/
theorem openArtifact_spec_witness :
    openArtifact toyCrypto (toyCrypto.aesEncrypt "m" "k" "iv") "k" "iv" "bogus"
      = .error .integrityError
    ∧ openArtifact toyCrypto (toyCrypto.aesEncrypt "m" "k" "iv") "k" "iv" (toySha256 "m")
      = .ok "m" := by
  constructor
  · exact (openArtifact_spec toyCrypto (toyCrypto.aesEncrypt "m" "k" "iv") "k" "iv"
      "bogus").1 (by decide)
  · have h := (openArtifact_spec toyCrypto (toyCrypto.aesEncrypt "m" "k" "iv") "k" "iv"
      (toySha256 "m")).2 (by decide)
    rw [show ForensicCrypto.decrypt toyCrypto (toyCrypto.aesEncrypt "m" "k" "iv") "k" "iv"
      = "m" from by decide] at h
    exact h

/-- C4: `validateCommand` accepts a command string if and only if it fully
matches one of the four fixed whitelist shapes (a `getprop ro.*` property
read, a `pm list packages` command with at most one single-letter flag, the
exact identity check `su -c "id"`, or an `ls -la` listing with a
constrained path group) and contains none of the forbidden shell
metacharacters; in particular `getprop ro.product.model` is accepted and
`getprop ro.product.model; rm -rf /` is rejected. -/
theorem validateCommand_spec :
    (∀ s : String, ADBBridge.validateCommand s = true ↔
      (ADBBridge.CommandWhitelisted s ∧ ∀ ch ∈ s.data, ADBBridge.dangerousChar ch = false))
    ∧ ADBBridge.validateCommand "getprop ro.product.model" = true
    ∧ ADBBridge.validateCommand "getprop ro.product.model; rm -rf /" = false :=
  ⟨ADBBridge.validateCommand_iff, by decide, by decide⟩

/-- C5: `validatePath` rejects every path containing `..`, rejects every
path containing a forbidden metacharacter, and accepts a path only if it
matches one of the four fixed anchored allowed patterns; in particular
`/sdcard/evidence.db` is accepted and `/sdcard/../etc/passwd` is
rejected. -/
theorem validatePath_spec :
    (∀ s : String, ADBBridge.validatePath s = true ↔
      (¬ ADBBridge.ContainsDotDot s ∧ ADBBridge.PathWhitelisted s ∧
        ∀ ch ∈ s.data, ADBBridge.dangerousChar ch = false))
    ∧ ADBBridge.validatePath "/sdcard/evidence.db" = true
    ∧ ADBBridge.validatePath "/sdcard/../etc/passwd" = false :=
  ⟨ADBBridge.validatePath_iff, by decide, by decide⟩

/-- C7: for every plaintext and key, `decrypt` applied to the ciphertext
and IV returned by `encrypt` with the same key returns the plaintext,
given the block cipher's round-trip property. -/
theorem encryptDecrypt_roundTrip (c : Crypto)
    (hrt : ∀ d k iv, c.aesDecrypt (c.aesEncrypt d k iv) k iv = d)
    (p k iv : String) :
    ForensicCrypto.decrypt c (ForensicCrypto.encrypt c p k iv).1 k
      (ForensicCrypto.encrypt c p k iv).2 = p := by
  simpa [ForensicCrypto.decrypt, ForensicCrypto.encrypt] using hrt p k iv

/-- Witness for C7 at the tagging crypto instance. -/
theorem encryptDecrypt_roundTrip_witness :
    ForensicCrypto.decrypt toyCrypto
      (ForensicCrypto.encrypt toyCrypto "contact list" "key-1" "iv-1").1 "key-1"
      (ForensicCrypto.encrypt toyCrypto "contact list" "key-1" "iv-1").2 = "contact list" :=
  encryptDecrypt_roundTrip toyCrypto toyRoundTrip "contact list" "key-1" "iv-1"

/-- The record stored by `createCase` for a given case id is found again
by `getCase` on the updated store. -/
theorem getCase_createCase (c : Crypto) (db : DBState)
    (caseId now salt logId logTs : String) (caseData : ForensicDatabase.CaseInput)
    (password : String) :
    ForensicDatabase.getCase
      (ForensicDatabase.createCase c db caseId now salt logId logTs caseData password).2 caseId
      = some (ForensicDatabase.createCase c db caseId now salt logId logTs caseData
          password).1.1 := by
  simp [ForensicDatabase.getCase, ForensicDatabase.createCase,
    ForensicDatabase.createCustodyLog, List.find?_cons]

/-- C6: after `createCase` persists a record created with password `p`,
`verifyPassword` returns `true` for `p`; it returns `false` for every
password whose derived key under the stored salt differs (given the hash
is collision-free); and `verifyPassword` leaves the persistent store —
and with it the stored salt and verification hash — unchanged. -/
theorem verifyPassword_spec (c : Crypto) (db : DBState)
    (caseId now salt logId logTs : String) (caseData : ForensicDatabase.CaseInput)
    (p : String) (hsalt : ¬ salt = "")
    (hhash : ¬ ForensicCrypto.calculateSHA256 c (ForensicCrypto.deriveKey c p salt) = "") :
    SecureKeyManager.verifyPassword c
      (ForensicDatabase.createCase c db caseId now salt logId logTs caseData p).2 caseId p
      = true
    ∧ (∀ q : String,
        (∀ a b : String, c.sha256 a = c.sha256 b → a = b) →
        ¬ ForensicCrypto.deriveKey c q salt = ForensicCrypto.deriveKey c p salt →
        SecureKeyManager.verifyPassword c
          (ForensicDatabase.createCase c db caseId now salt logId logTs caseData p).2 caseId q
          = false)
    ∧ (∀ q : String,
        (SecureKeyManager.verifyPasswordS c
          (ForensicDatabase.createCase c db caseId now salt logId logTs caseData p).2
          caseId q).2
        = (ForensicDatabase.createCase c db caseId now salt logId logTs caseData p).2) := by
  have hget := getCase_createCase c db caseId now salt logId logTs caseData p
  have hhash2 : ¬ c.sha256 (c.pbkdf2 p salt) = "" := hhash
  refine ⟨?_, ?_, fun q => rfl⟩
  · unfold SecureKeyManager.verifyPassword
    rw [hget]
    simp [ForensicDatabase.createCase, ForensicDatabase.createCustodyLog,
      ForensicDatabase.mkCustodyLog, ForensicCrypto.calculateSHA256,
      ForensicCrypto.deriveKey, hsalt, hhash2]
  · intro q hinj hq
    have hne : ¬ (c.sha256 (c.pbkdf2 q salt) = c.sha256 (c.pbkdf2 p salt)) :=
      fun h => hq (hinj _ _ h)
    unfold SecureKeyManager.verifyPassword
    rw [hget]
    simp [ForensicDatabase.createCase, ForensicDatabase.createCustodyLog,
      ForensicDatabase.mkCustodyLog, ForensicCrypto.calculateSHA256,
      ForensicCrypto.deriveKey, hsalt, hhash2, hne]

/-- Witness for C6 at the tagging crypto instance: the creating password
verifies, a different password does not, and the store is untouched. -/
theorem verifyPassword_spec_witness :
    SecureKeyManager.verifyPassword toyCrypto
      (ForensicDatabase.createCase toyCrypto DBState.empty "case-1" "t0" "salt-1" "log-1" "t1"
        { name := "Test", examiner := "Alice", status := .active,
          deviceInfo := none, legalAuthorization := none } "pw1").2 "case-1" "pw1" = true
    ∧ SecureKeyManager.verifyPassword toyCrypto
      (ForensicDatabase.createCase toyCrypto DBState.empty "case-1" "t0" "salt-1" "log-1" "t1"
        { name := "Test", examiner := "Alice", status := .active,
          deviceInfo := none, legalAuthorization := none } "pw1").2 "case-1" "pw2" = false := by
  have h := verifyPassword_spec toyCrypto DBState.empty "case-1" "t0" "salt-1" "log-1" "t1"
    { name := "Test", examiner := "Alice", status := .active,
      deviceInfo := none, legalAuthorization := none } "pw1" (by decide) (by decide)
  exact ⟨h.1, h.2.1 "pw2" toySha256_inj (by decide)⟩

/-- A stored case record used by the key-manager witnesses. -/
def witnessCase : ForensicCase :=
  { id := "case-1", name := "Case", examiner := "Alice", createdAt := "t0",
    updatedAt := "t0", status := .active, deviceInfo := none,
    legalAuthorization := none, encryptionSalt := "salt-1",
    passwordVerificationHash := "hash-x" }

def witnessDb : DBState :=
  { cases := [witnessCase], artifacts := [], custodyLogs := [] }

def witnessCache : KeyCache := [("case-1", "k0", 0)]

/-- C8: `deriveKeyForCase` returns the cached key whenever the cached
entry for the case id is younger than 30 minutes; on a miss — no entry,
or an entry aged 30 minutes or more — it derives the key from the
supplied password and the stored salt, stores it in the cache with a
fresh timestamp, and returns it. -/
theorem deriveKeyForCase_cacheTtl (c : Crypto) (db : DBState) (cache : KeyCache)
    (now : Int) (caseId password : String) (fc : ForensicCase)
    (hcase : ForensicDatabase.getCase db caseId = some fc)
    (hsalt : ¬ fc.encryptionSalt = "") :
    (∀ (k : String) (t : Int), KeyCache.get cache caseId = some (k, t) →
      now - t < SecureKeyManager.CACHE_TTL →
      SecureKeyManager.deriveKeyForCase c db cache now caseId password = .ok (k, cache))
    ∧ ((∀ (k : String) (t : Int), KeyCache.get cache caseId = some (k, t) →
          SecureKeyManager.CACHE_TTL ≤ now - t) →
        SecureKeyManager.deriveKeyForCase c db cache now caseId password
          = .ok (ForensicCrypto.deriveKey c password fc.encryptionSalt,
              KeyCache.set cache caseId
                (ForensicCrypto.deriveKey c password fc.encryptionSalt) now)) := by
  constructor
  · intro k t hget hlt
    have hfck : SecureKeyManager.freshCachedKey cache now caseId = some k := by
      simp [SecureKeyManager.freshCachedKey, hget, hlt]
    simp [SecureKeyManager.deriveKeyForCase, hcase, hsalt, hfck]
  · intro hstale
    have hfck : SecureKeyManager.freshCachedKey cache now caseId = none := by
      unfold SecureKeyManager.freshCachedKey
      cases hg : KeyCache.get cache caseId with
      | none => rfl
      | some kt =>
        rcases kt with ⟨k, t⟩
        have hnlt := not_lt.mpr (hstale k t hg)
        simp [hnlt]
    simp [SecureKeyManager.deriveKeyForCase, hcase, hsalt, hfck]

/-- Witness for C8: a fresh cache entry is returned as-is; an empty cache
falls back to derivation and caching. -/
theorem deriveKeyForCase_cacheTtl_witness :
    SecureKeyManager.deriveKeyForCase toyCrypto witnessDb witnessCache 1 "case-1" "pw"
      = .ok ("k0", witnessCache)
    ∧ SecureKeyManager.deriveKeyForCase toyCrypto witnessDb [] 1 "case-1" "pw"
      = .ok (ForensicCrypto.deriveKey toyCrypto "pw" "salt-1",
          KeyCache.set [] "case-1" (ForensicCrypto.deriveKey toyCrypto "pw" "salt-1") 1) := by
  have h1 := deriveKeyForCase_cacheTtl toyCrypto witnessDb witnessCache 1 "case-1" "pw"
    witnessCase (by decide) (by decide)
  have h2 := deriveKeyForCase_cacheTtl toyCrypto witnessDb [] 1 "case-1" "pw"
    witnessCase (by decide) (by decide)
  refine ⟨h1.1 "k0" 0 (by decide) (by decide), ?_⟩
  exact h2.2 (fun k t h => Option.noConfusion h)

/-- C10: on a cache hit younger than 30 minutes, `deriveKeyForCase` and
`getKeyForCustodyLog` return the same cached key for every supplied
password — including one for which `verifyPassword` returns `false` —
because the cache-hit path never consults the stored verification hash:
two runs differing only in the password argument produce identical
results. -/
theorem cacheHit_passwordIndependence (c : Crypto) (db : DBState) (cache : KeyCache)
    (now : Int) (caseId k : String) (t : Int) (p1 p2 : String) (fc : ForensicCase)
    (hget : KeyCache.get cache caseId = some (k, t))
    (hfresh : now - t < SecureKeyManager.CACHE_TTL)
    (hcase : ForensicDatabase.getCase db caseId = some fc)
    (hsalt : ¬ fc.encryptionSalt = "") :
    SecureKeyManager.deriveKeyForCase c db cache now caseId p1
      = SecureKeyManager.deriveKeyForCase c db cache now caseId p2
    ∧ SecureKeyManager.deriveKeyForCase c db cache now caseId p1 = .ok (k, cache)
    ∧ SecureKeyManager.getKeyForCustodyLog c db cache now caseId (some p1)
      = SecureKeyManager.getKeyForCustodyLog c db cache now caseId (some p2)
    ∧ SecureKeyManager.getKeyForCustodyLog c db cache now caseId (some p1) = .ok (k, cache)
    ∧ (SecureKeyManager.verifyPassword c db caseId p1 = false →
        SecureKeyManager.deriveKeyForCase c db cache now caseId p1 = .ok (k, cache)) := by
  have hfck : SecureKeyManager.freshCachedKey cache now caseId = some k := by
    simp [SecureKeyManager.freshCachedKey, hget, hfresh]
  have hderive : ∀ p : String,
      SecureKeyManager.deriveKeyForCase c db cache now caseId p = .ok (k, cache) := by
    intro p
    simp [SecureKeyManager.deriveKeyForCase, hcase, hsalt, hfck]
  have hcust : ∀ p : String,
      SecureKeyManager.getKeyForCustodyLog c db cache now caseId (some p)
        = .ok (k, cache) := by
    intro p
    simp [SecureKeyManager.getKeyForCustodyLog, hfck]
  exact ⟨(hderive p1).trans (hderive p2).symm, hderive p1,
    (hcust p1).trans (hcust p2).symm, hcust p1, fun _ => hderive p1⟩

/-- Witness for C10: with a fresh cache entry, a password that fails
verification still receives the cached key from both operations. -/
theorem cacheHit_passwordIndependence_witness :
    SecureKeyManager.deriveKeyForCase toyCrypto witnessDb witnessCache 1 "case-1" "pw-wrong"
      = .ok ("k0", witnessCache)
    ∧ SecureKeyManager.getKeyForCustodyLog toyCrypto witnessDb witnessCache 1 "case-1"
        (some "pw-wrong") = .ok ("k0", witnessCache)
    ∧ SecureKeyManager.verifyPassword toyCrypto witnessDb "case-1" "pw-wrong" = false := by
  have h := cacheHit_passwordIndependence toyCrypto witnessDb witnessCache 1 "case-1" "k0" 0
    "pw-wrong" "other" witnessCase (by decide) (by decide) (by decide) (by decide)
  exact ⟨h.2.1, h.2.2.2.1, by decide⟩

/-- Membership in the persisted strings after `createCase`: exactly the
old store contents plus the fields of the new case record and of the
`case_created` ledger entry. -/
theorem persistedStrings_createCase (c : Crypto) (db : DBState)
    (caseId now salt logId logTs : String) (caseData : ForensicDatabase.CaseInput)
    (password : String) (s : String) :
    s ∈ DBState.persistedStrings
        (ForensicDatabase.createCase c db caseId now salt logId logTs caseData password).2
      ↔ (s ∈ DBState.persistedStrings db
          ∨ s ∈ ForensicCase.fieldStrings
              (ForensicDatabase.createCase c db caseId now salt logId logTs caseData
                password).1.1
          ∨ s ∈ CustodyLog.fieldStrings
              (ForensicDatabase.createCaseLogEntry c caseId salt logId logTs caseData
                password)) := by
  simp only [DBState.persistedStrings, ForensicDatabase.createCase,
    ForensicDatabase.createCustodyLog, ForensicDatabase.createCaseLogEntry,
    ForensicDatabase.mkCustodyLog, List.map_cons, List.map_append, List.flatten_cons,
    List.flatten_append, List.mem_append]
  simp only [List.map_cons, List.map_nil, List.flatten_cons, List.flatten_nil,
    List.append_nil, List.mem_append]
  tauto

/-- C9: no operation of the core writes the raw password or a derived key
to persistent storage: the case record persisted by `createCase` carries
only the salt and the verification hash as cryptographic material, the
derived key exists only in the in-memory return value, and the key
manager's operations never modify the persistent store. -/
theorem keyNeverPersisted (c : Crypto) (db : DBState)
    (caseId now salt logId logTs : String) (caseData : ForensicDatabase.CaseInput)
    (password : String)
    (hpwOld : password ∉ DBState.persistedStrings db)
    (hkeyOld : ForensicCrypto.deriveKey c password salt ∉ DBState.persistedStrings db)
    (hpwNew : ∀ s ∈ ForensicCase.fieldStrings
        (ForensicDatabase.createCase c db caseId now salt logId logTs caseData password).1.1
        ++ CustodyLog.fieldStrings
          (ForensicDatabase.createCaseLogEntry c caseId salt logId logTs caseData password),
        ¬ s = password)
    (hkeyNew : ∀ s ∈ ForensicCase.fieldStrings
        (ForensicDatabase.createCase c db caseId now salt logId logTs caseData password).1.1
        ++ CustodyLog.fieldStrings
          (ForensicDatabase.createCaseLogEntry c caseId salt logId logTs caseData password),
        ¬ s = ForensicCrypto.deriveKey c password salt) :
    (ForensicDatabase.createCase c db caseId now salt logId logTs caseData
      password).1.1.encryptionSalt = salt
    ∧ (ForensicDatabase.createCase c db caseId now salt logId logTs caseData
        password).1.1.passwordVerificationHash
      = ForensicCrypto.calculateSHA256 c (ForensicCrypto.deriveKey c password salt)
    ∧ (ForensicDatabase.createCase c db caseId now salt logId logTs caseData password).1.2
      = ForensicCrypto.deriveKey c password salt
    ∧ password ∉ DBState.persistedStrings
        (ForensicDatabase.createCase c db caseId now salt logId logTs caseData password).2
    ∧ ForensicCrypto.deriveKey c password salt ∉ DBState.persistedStrings
        (ForensicDatabase.createCase c db caseId now salt logId logTs caseData password).2
    ∧ (∀ (db2 : DBState) (cache : KeyCache) (now2 : Int) (cid pw2 : String),
        (SecureKeyManager.deriveKeyForCaseS c db2 cache now2 cid pw2).2 = db2)
    ∧ (∀ (db2 : DBState) (cid pw2 : String),
        (SecureKeyManager.verifyPasswordS c db2 cid pw2).2 = db2) := by
  refine ⟨rfl, rfl, rfl, ?_, ?_, fun db2 cache now2 cid pw2 => rfl, fun db2 cid pw2 => rfl⟩
  · intro hmem
    rcases (persistedStrings_createCase c db caseId now salt logId logTs caseData
      password password).mp hmem with h | h | h
    · exact hpwOld h
    · exact hpwNew password (List.mem_append_left _ h) rfl
    · exact hpwNew password (List.mem_append_right _ h) rfl
  · intro hmem
    rcases (persistedStrings_createCase c db caseId now salt logId logTs caseData
      password (ForensicCrypto.deriveKey c password salt)).mp hmem with h | h | h
    · exact hkeyOld h
    · exact hkeyNew _ (List.mem_append_left _ h) rfl
    · exact hkeyNew _ (List.mem_append_right _ h) rfl

/-- Witness for C9 at the tagging crypto instance on an empty store. -/
theorem keyNeverPersisted_witness :
    "pw1" ∉ DBState.persistedStrings
      (ForensicDatabase.createCase toyCrypto DBState.empty "case-1" "t0" "salt-1" "log-1" "t1"
        { name := "Test", examiner := "Alice", status := .active,
          deviceInfo := none, legalAuthorization := none } "pw1").2
    ∧ ForensicCrypto.deriveKey toyCrypto "pw1" "salt-1" ∉ DBState.persistedStrings
      (ForensicDatabase.createCase toyCrypto DBState.empty "case-1" "t0" "salt-1" "log-1" "t1"
        { name := "Test", examiner := "Alice", status := .active,
          deviceInfo := none, legalAuthorization := none } "pw1").2 := by
  have h := keyNeverPersisted toyCrypto DBState.empty "case-1" "t0" "salt-1" "log-1" "t1"
    { name := "Test", examiner := "Alice", status := .active,
      deviceInfo := none, legalAuthorization := none } "pw1"
    (by decide) (by decide) (by decide) (by decide)
  exact ⟨h.2.2.2.1, h.2.2.2.2.1⟩

/-- The concrete case-creation scenario the C1 counterexample evaluates. -/
def cxCaseInput : ForensicDatabase.CaseInput :=
  { name := "Test Case", examiner := "Alice", status := .active,
    deviceInfo := none, legalAuthorization := none }

def cxCreated : (ForensicCase × String) × DBState :=
  ForensicDatabase.createCase toyCrypto DBState.empty "case-1" "t0" "salt-1" "log-1" "t1"
    cxCaseInput "pw"

set_option maxRecDepth 20000 in
/-- Counterexample to C1 as stated: at the tagging crypto instance, the
`case_created` entry appended by `createCase` is signed with the
label-transformed key (it verifies under that key), yet
`ReportGenerator.generateReport`, run with the correct password, marks
that same entry unverified because it verifies with the raw derived case
key; the target-acquisition custody call supplies no `hmacKey` argument
at all; and the raw key differs from its label transform. -/
theorem custodyHmacKey_counterexample :
    (ReportGenerator.generateReport toyCrypto cxCreated.2 "case-1" "pw").toOption.map
        (List.map Prod.snd) = some [false]
    ∧ cxCreated.2.custodyLogs.map
        (fun e => ForensicDatabase.verifyCustodyLogIntegrity toyCrypto e
          (ForensicCrypto.calculateHMAC toyCrypto "hmac_key_derivation" cxCreated.1.2))
      = [true]
    ∧ (TargetAcquisitionEngine.startCustodyCall toyCrypto cxCreated.1.1 "pw"
        "device").hmacKeyArg = none
    ∧ ForensicCrypto.deriveKey toyCrypto "pw" "salt-1"
      ≠ ForensicCrypto.calculateHMAC toyCrypto "hmac_key_derivation"
          (ForensicCrypto.deriveKey toyCrypto "pw" "salt-1") :=
  ⟨by decide, by decide, rfl, by decide⟩

/-- C1 amended: the `database.ts` custody calls (case creation, artifact
addition) sign with `HMAC('hmac_key_derivation', caseKey)`; but the
acquisition engines' start/completion custody calls pass no `hmacKey`
argument (the raw derived case key — or, for `AcquisitionEngine`, the
nonexistent `forensicCase.encryptionKey` — sits uselessly inside the
log-data object), and `ReportGenerator.generateReport` verifies custody
entries with the raw derived case key. -/
theorem custodyHmacKey_amended (c : Crypto) (db : DBState)
    (caseId now salt logId logTs : String) (caseData : ForensicDatabase.CaseInput)
    (password encryptionKey examiner artifactName artifactType caseName details pw : String)
    (fc : ForensicCase)
    (hcase : ForensicDatabase.getCase db caseId = some fc)
    (hpw : ForensicCrypto.calculateSHA256 c (ForensicCrypto.deriveKey c pw fc.encryptionSalt)
        = fc.passwordVerificationHash) :
    (ForensicDatabase.createCaseCustodyCall c caseId caseName examiner encryptionKey).hmacKeyArg
      = some (ForensicCrypto.calculateHMAC c "hmac_key_derivation" encryptionKey)
    ∧ (ForensicDatabase.addArtifactCustodyCall c caseId examiner artifactName artifactType
        encryptionKey).hmacKeyArg
      = some (ForensicCrypto.calculateHMAC c "hmac_key_derivation" encryptionKey)
    ∧ (ForensicDatabase.createCase c db caseId now salt logId logTs caseData
        password).2.custodyLogs
      = db.custodyLogs
        ++ [ForensicDatabase.createCaseLogEntry c caseId salt logId logTs caseData password]
    ∧ ForensicDatabase.verifyCustodyLogIntegrity c
        (ForensicDatabase.createCaseLogEntry c caseId salt logId logTs caseData password)
        (ForensicCrypto.calculateHMAC c "hmac_key_derivation"
          (ForensicCrypto.deriveKey c password salt)) = true
    ∧ (TargetAcquisitionEngine.startCustodyCall c fc pw details).hmacKeyArg = none
    ∧ (TargetAcquisitionEngine.startCustodyCall c fc pw details).strayHmacKeyField
      = some (ForensicCrypto.deriveKey c pw fc.encryptionSalt)
    ∧ (TargetAcquisitionEngine.completeCustodyCall c fc pw).hmacKeyArg = none
    ∧ (AcquisitionEngine.startCustodyCall caseId examiner).hmacKeyArg = none
    ∧ (AcquisitionEngine.completeCustodyCall caseId examiner).hmacKeyArg = none
    ∧ ReportGenerator.generateReport c db caseId pw
      = .ok ((ForensicDatabase.getCustodyLogs db caseId).map
          (fun log => (log, ForensicDatabase.verifyCustodyLogIntegrity c log
            (ForensicCrypto.deriveKey c pw fc.encryptionSalt)))) := by
  refine ⟨rfl, rfl, rfl, ?_, rfl, rfl, rfl, rfl, rfl, ?_⟩
  · simp only [ForensicDatabase.verifyCustodyLogIntegrity,
      ForensicDatabase.createCaseLogEntry, ForensicDatabase.mkCustodyLog,
      ForensicCrypto.verifyHMAC, ForensicCrypto.calculateHMAC]
    rw [beq_iff_eq]
    rfl
  · simp [ReportGenerator.generateReport, hcase, hpw]

/-- A stored case record whose verification hash matches password `pw`
under the tagging crypto instance. -/
def witnessCase2 : ForensicCase :=
  { id := "case-2", name := "Case", examiner := "Alice", createdAt := "t0",
    updatedAt := "t0", status := .active, deviceInfo := none,
    legalAuthorization := none, encryptionSalt := "salt-1",
    passwordVerificationHash := toyCrypto.sha256 (toyCrypto.pbkdf2 "pw" "salt-1") }

def witnessDb2 : DBState :=
  { cases := [witnessCase2], artifacts := [], custodyLogs := [] }

/-- Witness for the amended C1 at the tagging crypto instance. -/
theorem custodyHmacKey_amended_witness :
    (TargetAcquisitionEngine.startCustodyCall toyCrypto witnessCase2 "pw"
      "device").hmacKeyArg = none
    ∧ (ForensicDatabase.createCaseCustodyCall toyCrypto "case-2" "Case" "Alice"
        "key").hmacKeyArg
      = some (ForensicCrypto.calculateHMAC toyCrypto "hmac_key_derivation" "key")
    ∧ ReportGenerator.generateReport toyCrypto witnessDb2 "case-2" "pw" = .ok [] := by
  have h := custodyHmacKey_amended toyCrypto witnessDb2 "case-2" "t0" "salt-1" "log-1" "t1"
    cxCaseInput "pw" "key" "Alice" "art" "type" "Case" "device" "pw" witnessCase2
    (by decide) (by decide)
  exact ⟨h.2.2.2.2.1, h.1, h.2.2.2.2.2.2.2.2.2⟩

end MobileDigScope
